import Mathlib

/-!
Verification of the LFS storage core (`storage/file_storage.go`).

Shallow-embedding conventions:

* File contents are byte sequences, modelled as `List Nat`.
* The filesystem visible to the storage core is modelled with association
  lists: final files keyed by file name and staging chunk files keyed by
  (file name, chunk index).  `os.Create` truncates an existing file, which
  the shadowing insertion `setKey` models; `os.Remove` / `os.RemoveAll`
  filter the key (all shadowed bindings) out.
* Go `int` / `int64` values are modelled as `Int`; `time.Time` stamps as
  `Nat` (the source only compares them for equality); `float64` progress
  values as `Rat` (they only ever hold ratios of byte counts and are
  stored, never computed with, in the claims at issue).
* The MD5 function itself is a parameter `md5fn : List Nat → String`:
  every theorem about checksum comparison below holds for an arbitrary
  hash function, which is exactly what the source's control flow
  guarantees.
* Goroutine scheduling is not executed: `ListFiles` records the paths it
  hands to background MD5 jobs in a `scheduled` list, mirroring the
  `go func(...)` calls the source makes synchronously.
-/

namespace LFS

/-- Association-list lookup: a Go map read, or resolving a path against the
set of files on disk.  Returns the newest (first) binding for the key. -/
def lookupKey {α β : Type} [DecidableEq α] (k : α) : List (α × β) → Option β
  | [] => none
  | (k', v) :: rest => if k' = k then some v else lookupKey k rest

/-- Shadowing insertion: a Go map write, or `os.Create` truncating and
rewriting a file at a path. -/
def setKey {α β : Type} (k : α) (v : β) (l : List (α × β)) : List (α × β) :=
  (k, v) :: l

/-- Key removal: `os.Remove` deleting the file at a path. -/
def removeKey {α β : Type} [DecidableEq α] (k : α) (l : List (α × β)) : List (α × β) :=
  l.filter (fun kv => decide (kv.1 ≠ k))

theorem lookupKey_setKey_self {α β : Type} [DecidableEq α] (k : α) (v : β)
    (l : List (α × β)) : lookupKey k (setKey k v l) = some v := by
  simp [lookupKey, setKey]

theorem lookupKey_setKey_ne {α β : Type} [DecidableEq α] {k k' : α} (v : β)
    (l : List (α × β)) (h : k' ≠ k) : lookupKey k (setKey k' v l) = lookupKey k l := by
  simp [lookupKey, setKey, h]

theorem lookupKey_removeKey_self {α β : Type} [DecidableEq α] (k : α)
    (l : List (α × β)) : lookupKey k (removeKey k l) = none := by
  induction l with
  | nil => rfl
  | cons kv rest ih =>
      by_cases h : kv.1 = k
      · simpa [removeKey, h] using ih
      · simpa [removeKey, lookupKey, h] using ih

/-! ## The MD5 cache (`MD5Cache` and its methods) -/

/-- `MD5CacheEntry` from the source, field for field.  `ModTime` is an
abstract timestamp, `Progress` the `float64` fraction as a rational. -/
structure MD5CacheEntry where
  MD5 : String
  ModTime : Nat
  Size : Int
  Calculated : Bool
  Calculating : Bool
  Progress : Rat
  Error : String
deriving DecidableEq, Repr

/-- The cache map `map[string]*MD5CacheEntry`, keyed by file path. -/
abbrev MD5CacheMap := List (String × MD5CacheEntry)

/-- `GetMD5FromCache`: returns `("", false)` when no entry exists or the
stored fingerprint (modification time, size) differs, and otherwise the
stored MD5 together with the `Calculated` flag. -/
def GetMD5FromCache (cache : MD5CacheMap) (filePath : String) (modTime : Nat)
    (size : Int) : String × Bool :=
  match lookupKey filePath cache with
  | none => ("", false)
  | some entry =>
      if entry.ModTime ≠ modTime ∨ entry.Size ≠ size then ("", false)
      else (entry.MD5, entry.Calculated)

/-- `SetMD5ToCache`: stores a freshly computed MD5.  The Go struct literal
omits `Progress` and `Error`, so they take their zero values. -/
def SetMD5ToCache (cache : MD5CacheMap) (filePath md5 : String) (modTime : Nat)
    (size : Int) : MD5CacheMap :=
  setKey filePath
    { MD5 := md5, ModTime := modTime, Size := size,
      Calculated := true, Calculating := false, Progress := 0, Error := "" } cache

/-- `SetCalculating`: marks a path as having an in-flight computation.  The
Go struct literal omits `MD5` and `Error`, so they take their zero values. -/
def SetCalculating (cache : MD5CacheMap) (filePath : String) (modTime : Nat)
    (size : Int) : MD5CacheMap :=
  setKey filePath
    { MD5 := "", ModTime := modTime, Size := size,
      Calculated := false, Calculating := true, Progress := 0, Error := "" } cache

/-- `UpdateProgress`: mutates the `Progress` field of an existing entry;
does nothing when the path has no entry. -/
def UpdateProgress (cache : MD5CacheMap) (filePath : String) (progress : Rat) :
    MD5CacheMap :=
  cache.map (fun kv =>
    (kv.1, if kv.1 = filePath then { kv.2 with Progress := progress } else kv.2))

/-- `SetError`: on an existing entry, clears `Calculating` and records the
error message; does nothing when the path has no entry. -/
def SetError (cache : MD5CacheMap) (filePath msg : String) : MD5CacheMap :=
  cache.map (fun kv =>
    (kv.1,
      if kv.1 = filePath then { kv.2 with Calculating := false, Error := msg }
      else kv.2))

/-- `GetProgress`: returns (progress, calculating, error message), with zero
values when the path has no entry. -/
def GetProgress (cache : MD5CacheMap) (filePath : String) : Rat × Bool × String :=
  match lookupKey filePath cache with
  | none => (0, false, "")
  | some entry => (entry.Progress, entry.Calculating, entry.Error)

/-- Claim C5: `GetMD5FromCache(path, modTime, size)` reports a hit (second
component `true`) exactly when an entry for the path exists whose stored
fingerprint equals the given (modification time, size) and whose state is
Calculated; moreover any fingerprint mismatch returns the miss value
`("", false)` outright. -/
theorem getMD5FromCache_hit_iff (cache : MD5CacheMap) (filePath : String)
    (modTime : Nat) (size : Int) :
    ((GetMD5FromCache cache filePath modTime size).2 = true ↔
      ∃ e, lookupKey filePath cache = some e ∧
        e.ModTime = modTime ∧ e.Size = size ∧ e.Calculated = true) ∧
    (∀ e, lookupKey filePath cache = some e →
      (e.ModTime ≠ modTime ∨ e.Size ≠ size) →
      GetMD5FromCache cache filePath modTime size = ("", false)) := by
  constructor
  · unfold GetMD5FromCache
    cases h : lookupKey filePath cache with
    | none => simp
    | some e =>
        by_cases hm : e.ModTime = modTime <;> by_cases hs : e.Size = size <;>
          simp [hm, hs]
  · intro e he hne
    unfold GetMD5FromCache
    rw [he]
    simp [if_pos hne]

/-- Lookup through a key-preserving value rewrite. -/
theorem lookupKey_mapVal {α β : Type} [DecidableEq α] (g : α → β → β) (p : α)
    (l : List (α × β)) :
    lookupKey p (l.map (fun kv => (kv.1, g kv.1 kv.2))) =
      (lookupKey p l).map (g p) := by
  induction l with
  | nil => rfl
  | cons kv rest ih =>
      by_cases hk : kv.1 = p
      · subst hk; simp [lookupKey, ih]
      · simp [lookupKey, hk, ih]

/-- Lookup through `UpdateProgress` rewrites the found entry (if any) with
the new progress value exactly when the looked-up path is the updated one. -/
theorem lookupKey_updateProgress (cache : MD5CacheMap) (p filePath : String)
    (progress : Rat) :
    lookupKey p (UpdateProgress cache filePath progress) =
      (lookupKey p cache).map
        (fun e => if p = filePath then { e with Progress := progress } else e) :=
  lookupKey_mapVal
    (fun (k : String) (e : MD5CacheEntry) =>
      if k = filePath then { e with Progress := progress } else e) p cache

/-- Lookup through `SetError`, analogously. -/
theorem lookupKey_setError (cache : MD5CacheMap) (p filePath msg : String) :
    lookupKey p (SetError cache filePath msg) =
      (lookupKey p cache).map
        (fun e =>
          if p = filePath then { e with Calculating := false, Error := msg }
          else e) :=
  lookupKey_mapVal
    (fun (k : String) (e : MD5CacheEntry) =>
      if k = filePath then { e with Calculating := false, Error := msg } else e)
    p cache

/-- The cache invariant of claim C9: no entry is simultaneously flagged
Calculated and Calculating. -/
def CacheInv (cache : MD5CacheMap) : Prop :=
  ∀ p e, lookupKey p cache = some e → ¬(e.Calculated = true ∧ e.Calculating = true)

/-- Claim C9: every mutating cache operation (`SetMD5ToCache`,
`SetCalculating`, `UpdateProgress`, `SetError`) preserves the invariant
that no entry has `Calculated` and `Calculating` set at the same time. -/
theorem cacheInv_preserved (cache : MD5CacheMap)
    (filePath md5 msg : String) (modTime : Nat) (size : Int) (progress : Rat)
    (h : CacheInv cache) :
    CacheInv (SetMD5ToCache cache filePath md5 modTime size) ∧
    CacheInv (SetCalculating cache filePath modTime size) ∧
    CacheInv (UpdateProgress cache filePath progress) ∧
    CacheInv (SetError cache filePath msg) := by
  refine ⟨?_, ?_, ?_, ?_⟩
  · intro p e hl
    by_cases hp : filePath = p
    · subst hp
      rw [SetMD5ToCache, lookupKey_setKey_self] at hl
      cases hl
      simp
    · rw [SetMD5ToCache, lookupKey_setKey_ne _ _ hp] at hl
      exact h p e hl
  · intro p e hl
    by_cases hp : filePath = p
    · subst hp
      rw [SetCalculating, lookupKey_setKey_self] at hl
      cases hl
      simp
    · rw [SetCalculating, lookupKey_setKey_ne _ _ hp] at hl
      exact h p e hl
  · intro p e hl
    rw [lookupKey_updateProgress] at hl
    cases he : lookupKey p cache with
    | none => rw [he] at hl; cases hl
    | some e0 =>
        rw [he] at hl
        have h0 := h p e0 he
        by_cases hp : p = filePath <;> simp [hp] at hl <;> subst hl <;>
          simp_all
  · intro p e hl
    rw [lookupKey_setError] at hl
    cases he : lookupKey p cache with
    | none => rw [he] at hl; cases hl
    | some e0 =>
        rw [he] at hl
        have h0 := h p e0 he
        by_cases hp : p = filePath <;> simp [hp] at hl <;> subst hl <;>
          simp_all

/-- Witness for C9: the invariant theorem applied to the empty cache, read
back at the concrete entry `SetMD5ToCache` just wrote. -/
theorem cacheInv_preserved_witness :
    ¬(({ MD5 := "d41d8cd98f00b204e9800998ecf8427e", ModTime := 3, Size := 7,
         Calculated := true, Calculating := false, Progress := 0,
         Error := "" } : MD5CacheEntry).Calculated = true ∧
      ({ MD5 := "d41d8cd98f00b204e9800998ecf8427e", ModTime := 3, Size := 7,
         Calculated := true, Calculating := false, Progress := 0,
         Error := "" } : MD5CacheEntry).Calculating = true) := by
  have h := cacheInv_preserved [] "f" "d41d8cd98f00b204e9800998ecf8427e" "boom"
    3 7 0 (by intro p e hl; cases hl)
  exact h.1 "f" _ (by rw [SetMD5ToCache, lookupKey_setKey_self])

/-! ## Header parsing (`strings.Split`, `strings.TrimPrefix`, `strconv`) -/

/-- `strings.Split` with a one-character separator, on the character list
underlying a Go string. -/
def splitOnChar (sep : Char) : List Char → List (List Char)
  | [] => [[]]
  | c :: cs =>
      if c = sep then [] :: splitOnChar sep cs
      else
        match splitOnChar sep cs with
        | [] => [[c]]
        | g :: gs => (c :: g) :: gs

/-- `strings.TrimPrefix`: drops the leading `pre` when present, otherwise
returns the input unchanged. -/
def trimPfx (pre s : List Char) : List Char :=
  if s.take pre.length = pre then s.drop pre.length else s

/-- Accumulating decimal reader underlying `strconv.Atoi`/`ParseInt`:
consumes decimal digits, failing on any other character. -/
def digitsToNat : List Char → Nat → Option Nat
  | [], acc => some acc
  | c :: rest, acc =>
      if c.isDigit then digitsToNat rest (10 * acc + (c.toNat - 48)) else none

/-- `strconv.ParseInt(s, 10, 64)` / `strconv.Atoi` on the inputs this
program feeds them: an optional sign followed by decimal digits (64-bit
overflow is not modelled; the program only parses byte offsets). -/
def parseInt (s : String) : Option Int :=
  match s.data with
  | [] => none
  | c :: rest =>
      if c = '+' then
        (if rest = [] then none else (digitsToNat rest 0).map (fun n => (n : Int)))
      else if c = '-' then
        (if rest = [] then none else (digitsToNat rest 0).map (fun n => -(n : Int)))
      else (digitsToNat (c :: rest) 0).map (fun n => (n : Int))

theorem splitOnChar_ne_nil (sep : Char) (cs : List Char) :
    splitOnChar sep cs ≠ [] := by
  induction cs with
  | nil => simp [splitOnChar]
  | cons c rest ih =>
      by_cases h : c = sep
      · simp [splitOnChar, h]
      · simp only [splitOnChar, if_neg h]
        cases hs : splitOnChar sep rest with
        | nil => exact absurd hs ih
        | cons g gs => simp

/-- Splitting a separator-free string returns it whole. -/
theorem splitOnChar_of_not_mem {sep : Char} {cs : List Char} (h : sep ∉ cs) :
    splitOnChar sep cs = [cs] := by
  induction cs with
  | nil => rfl
  | cons c rest ih =>
      have hc : c ≠ sep := fun hc => h (hc ▸ List.mem_cons_self c rest)
      have hrest : sep ∉ rest := fun hm => h (List.mem_cons_of_mem c hm)
      simp [splitOnChar, hc, ih hrest]

/-- Splitting at the first separator occurrence peels off the prefix. -/
theorem splitOnChar_append_sep {sep : Char} {xs : List Char} (ys : List Char)
    (h : sep ∉ xs) :
    splitOnChar sep (xs ++ sep :: ys) = xs :: splitOnChar sep ys := by
  induction xs with
  | nil => simp [splitOnChar]
  | cons c rest ih =>
      have hc : c ≠ sep := fun hc => h (hc ▸ List.mem_cons_self c rest)
      have hrest : sep ∉ rest := fun hm => h (List.mem_cons_of_mem c hm)
      simp [splitOnChar, hc, ih hrest]

/-- A decimal-digit string followed by a dash splits into the digits and an
empty remainder. -/
theorem splitOnChar_dash_of_digits {cs : List Char}
    (h : ∀ c ∈ cs, c.isDigit) :
    splitOnChar '-' (cs ++ ['-']) = [cs, []] := by
  have hnm : ('-' : Char) ∉ cs := by
    intro hm
    have := h _ hm
    simp [Char.isDigit] at this
  have := @splitOnChar_append_sep '-' cs [] hnm
  simpa [splitOnChar] using this

theorem trimPfx_append (pre rest : List Char) :
    trimPfx pre (pre ++ rest) = rest := by
  simp [trimPfx, List.take_left, List.drop_left]

/-- `parseInt` on a nonempty all-digit string returns the value the digit
reader assigns to it. -/
theorem parseInt_of_digits {s : String} {n : Nat} (hne : s.data ≠ [])
    (hdig : ∀ c ∈ s.data, c.isDigit) (hval : digitsToNat s.data 0 = some n) :
    parseInt s = some (n : Int) := by
  unfold parseInt
  cases hs : s.data with
  | nil => exact absurd hs hne
  | cons c rest =>
      have hc : c.isDigit := hdig c (hs ▸ List.mem_cons_self c rest)
      have hplus : c ≠ '+' := by intro h; rw [h] at hc; simp [Char.isDigit] at hc
      have hminus : c ≠ '-' := by intro h; rw [h] at hc; simp [Char.isDigit] at hc
      rw [hs] at hval
      simp [hplus, hminus, hval]

/-! ## `SaveFile`: resumable single-file upload -/

/-- Final files under the storage root: name, content. -/
abbrev FileMap := List (String × List Nat)

/-- `SaveFile(storagePath, file, rangeHeader)`.

The source parses the resume offset out of the `Range` header
(`strings.Split(strings.TrimPrefix(rangeHeader, "bytes="), "-")`, then
`strconv.ParseInt` of the first part), opens the destination with
`O_CREATE|O_WRONLY|O_APPEND`, seeks to the offset when it is nonzero, and
copies the uploaded part into it.  Because the descriptor carries
`O_APPEND`, POSIX write semantics place every written byte at the current
end of file regardless of the seek position, so the upload content is
appended to whatever the destination already holds; the parsed offset only
matters through parse failure, which aborts the call. -/
def SaveFile (dests : FileMap) (fileName : String) (src : List Nat)
    (rangeHeader : String) : Except String FileMap :=
  let startRes : Except String Int :=
    if rangeHeader = "" then .ok 0
    else
      let parts := splitOnChar '-' (trimPfx "bytes=".data rangeHeader.data)
      match parseInt (String.mk (parts.headD [])) with
      | none => .error "strconv.ParseInt: invalid syntax"
      | some n => .ok n
  match startRes with
  | .error e => .error e
  | .ok _start =>
      let old := (lookupKey fileName dests).getD []
      .ok (setKey fileName (old ++ src) dests)

/-- Claim C2: for every file content and every resume offset
`0 ≤ off ≤ fileSize`, uploading the first `off` bytes with no `Range`
header and then the remaining bytes with the resume indicator
`bytes=off-` (for any decimal-digit rendering `s` of `off`) leaves the
destination byte-for-byte identical to a single uninterrupted upload of
the whole content. -/
theorem saveFile_resume_eq_single (content : List Nat) (off : Nat)
    (fileName s : String) (hne : s.data ≠ []) (hdig : ∀ c ∈ s.data, c.isDigit)
    (hval : digitsToNat s.data 0 = some off) (_hoff : off ≤ content.length) :
    ∃ resumed single : FileMap,
      (SaveFile [] fileName (content.take off) "").bind
          (fun d1 => SaveFile d1 fileName (content.drop off)
            ("bytes=" ++ s ++ "-")) = .ok resumed ∧
      SaveFile [] fileName content "" = .ok single ∧
      lookupKey fileName resumed = some content ∧
      lookupKey fileName single = some content := by
  have hhdr : ("bytes=" ++ s ++ "-").data = "bytes=".data ++ (s.data ++ ['-']) := by
    simp [String.data_append]
  have hsplit : splitOnChar '-' (trimPfx "bytes=".data ("bytes=" ++ s ++ "-").data)
      = [s.data, []] := by
    rw [hhdr, trimPfx_append]
    exact splitOnChar_dash_of_digits hdig
  have hparse : parseInt (String.mk s.data) = some (off : Int) :=
    parseInt_of_digits hne hdig hval
  refine ⟨setKey fileName (content.take off ++ content.drop off)
      (setKey fileName ([] ++ content.take off) []),
    setKey fileName ([] ++ content) [], ?_, ?_, ?_, ?_⟩
  · have hfirst : SaveFile [] fileName (content.take off) "" =
        .ok (setKey fileName ([] ++ content.take off) []) := rfl
    rw [hfirst]
    show SaveFile (setKey fileName ([] ++ content.take off) []) fileName
        (content.drop off) ("bytes=" ++ s ++ "-") = _
    unfold SaveFile
    have hnhdr : ¬("bytes=" ++ s ++ "-" = "") := by
      intro h
      have := congrArg String.data h
      rw [hhdr] at this
      simp at this
    rw [if_neg hnhdr, hsplit]
    simp only [List.headD]
    rw [hparse]
    simp [lookupKey_setKey_self]
  · rfl
  · rw [List.take_append_drop]
    exact lookupKey_setKey_self _ _ _
  · simp [lookupKey_setKey_self]

/-- Witness for C2 at `content = [10, 20, 30, 40, 50]`, `off = 2`. -/
theorem saveFile_resume_eq_single_witness :
    ∃ resumed single : FileMap,
      (SaveFile [] "f.bin" ([10, 20, 30, 40, 50].take 2) "").bind
          (fun d1 => SaveFile d1 "f.bin" ([10, 20, 30, 40, 50].drop 2)
            ("bytes=" ++ "2" ++ "-")) = .ok resumed ∧
      SaveFile [] "f.bin" [10, 20, 30, 40, 50] "" = .ok single ∧
      lookupKey "f.bin" resumed = some [10, 20, 30, 40, 50] ∧
      lookupKey "f.bin" single = some [10, 20, 30, 40, 50] :=
  saveFile_resume_eq_single [10, 20, 30, 40, 50] 2 "f.bin" "2"
    (by decide) (by decide) (by decide) (by decide)

/-! ## Downloads: `parseRangeHeader`, `copyWithCancel`, `DownloadFile`,
`DownloadFileChunk` -/

/-- The response the storage code writes through `c.Writer`: the headers it
sets, the status code it writes, and the bytes handed to the writer. -/
structure HttpResponse where
  status : Option Nat
  contentRange : Option String
  acceptRanges : Option String
  contentLength : Option String
  contentDisposition : Option String
  contentType : Option String
  body : List Nat
deriving DecidableEq, Repr

/-- `copyWithCancel(ctx, dst, src, size)`: checks the cancellation signal,
then loops reading `src` into a buffer and writing every byte read to
`dst` until EOF.  The `size` argument is accepted but never read inside
the loop, so the bytes written are all of `src` (the file from its seek
position to EOF), not `size` many. -/
def copyWithCancel (canceled : Bool) (src : List Nat) (size : Int) :
    Except String (List Nat) :=
  if canceled then .error "context canceled"
  else
    let _ := size
    .ok src

/-- `parseRangeHeader`: `strings.Split(rangeHeader, "=")[1]`, split that on
`-`, `Atoi` the first part, reject an empty second part with
"range end position required", `Atoi` the second part.  A missing index 1
is a Go slice-bounds panic, modelled as a distinct error. -/
def parseRangeHeader (rangeHeader : String) : Except String (Int × Int) :=
  match (splitOnChar '=' rangeHeader.data)[1]? with
  | none => .error "panic: index out of range"
  | some parts =>
      let rangeParts := splitOnChar '-' parts
      match parseInt (String.mk (rangeParts.headD [])) with
      | none => .error "strconv.Atoi: invalid syntax"
      | some start =>
          match rangeParts[1]? with
          | none => .error "panic: index out of range"
          | some ep =>
              if ep = [] then .error "range end position required"
              else
                match parseInt (String.mk ep) with
                | none => .error "strconv.Atoi: invalid syntax"
                | some e => .ok (start, e)

/-- `DownloadFile(c, storagePath, filename, rangeHeader)`.

With a nonempty `Range` header the source parses `[start, end]`, sets
`Content-Range: bytes start-end/fileSize`, `Accept-Ranges` and
`Content-Length: end-start+1`, writes status 206 (partial content), seeks
to `start` and calls `copyWithCancel(..., end-start+1)` — which copies
from `start` to EOF.  Without a header it sets the attachment headers and
streams the whole file.  Errors (missing file, malformed header, canceled
context, negative seek) abort the call; the partially-set headers of an
aborted call are not modelled, only the rejection itself. -/
def DownloadFile (dests : FileMap) (filename rangeHeader : String)
    (canceled : Bool) : Except String HttpResponse :=
  match lookupKey filename dests with
  | none => .error "file not found"
  | some content =>
      let fileSize : Int := content.length
      if rangeHeader ≠ "" then
        match parseRangeHeader rangeHeader with
        | .error e => .error e
        | .ok (start, endPos) =>
            if canceled then .error "context canceled"
            else if start < 0 then .error "seek: invalid argument"
            else
              match copyWithCancel canceled (content.drop start.toNat)
                  (endPos - start + 1) with
              | .error e => .error e
              | .ok written =>
                  .ok { status := some 206
                        contentRange := some ("bytes " ++ toString start ++ "-"
                          ++ toString endPos ++ "/" ++ toString fileSize)
                        acceptRanges := some "bytes"
                        contentLength := some (toString (endPos - start + 1))
                        contentDisposition := none
                        contentType := none
                        body := written }
      else
        if canceled then .error "context canceled"
        else
          match copyWithCancel canceled content fileSize with
          | .error e => .error e
          | .ok written =>
              .ok { status := none
                    contentRange := none
                    acceptRanges := none
                    contentLength := some (toString fileSize)
                    contentDisposition :=
                      some ("attachment; filename=\x22" ++ filename ++ "\x22")
                    contentType := some "application/octet-stream"
                    body := written }

/-- The `[start, end]` window `DownloadFileChunk` computes:
`start = chunkIndex*chunkSize`, `end = start+chunkSize-1` clamped to
`fileSize-1` when it reaches past the file. -/
def chunkWindow (chunkIndex chunkSize fileSize : Int) : Int × Int :=
  let start := chunkIndex * chunkSize
  let endPos := start + chunkSize - 1
  (start, if endPos ≥ fileSize then fileSize - 1 else endPos)

/-- `DownloadFileChunk(c, storagePath, filename, chunkIndex, chunkSize)`:
computes the window, sets `Content-Range`/`Accept-Ranges`/`Content-Length`,
writes status 206, seeks to `start` and copies from there to EOF via
`copyWithCancel`. -/
def DownloadFileChunk (dests : FileMap) (filename : String)
    (chunkIndex chunkSize : Int) (canceled : Bool) : Except String HttpResponse :=
  match lookupKey filename dests with
  | none => .error "file not found"
  | some content =>
      let fileSize : Int := content.length
      let w := chunkWindow chunkIndex chunkSize fileSize
      let start := w.1
      let endPos := w.2
      if canceled then .error "context canceled"
      else if start < 0 then .error "seek: invalid argument"
      else
        match copyWithCancel canceled (content.drop start.toNat)
            (endPos - start + 1) with
        | .error e => .error e
        | .ok written =>
            .ok { status := some 206
                  contentRange := some ("bytes " ++ toString start ++ "-"
                    ++ toString endPos ++ "/" ++ toString fileSize)
                  acceptRanges := some "bytes"
                  contentLength := some (toString (endPos - start + 1))
                  contentDisposition := none
                  contentType := none
                  body := written }

/-- Claim C3 (divergence witness): for a 1000-byte stored file, the range
request `bytes=100-199` yields status 206 and headers
`Content-Range: bytes 100-199/1000`, `Content-Length: 100` — but the body
handed to the response writer is `content.drop 100`, all 900 bytes from
offset 100 to EOF, because `copyWithCancel` never consults its size
argument.  The claim's "exactly 100 bytes" fails. -/
theorem downloadFile_range_writes_to_eof (dests : FileMap) (filename : String)
    (content : List Nat) (hlook : lookupKey filename dests = some content)
    (hlen : content.length = 1000) :
    DownloadFile dests filename "bytes=100-199" false =
      .ok { status := some 206
            contentRange := some "bytes 100-199/1000"
            acceptRanges := some "bytes"
            contentLength := some "100"
            contentDisposition := none
            contentType := none
            body := content.drop 100 } ∧
    (content.drop 100).length = 900 := by
  have hparse : parseRangeHeader "bytes=100-199" = Except.ok (100, 199) := rfl
  constructor
  · simp only [DownloadFile, hlook, hparse, hlen, copyWithCancel]
    rfl
  · simp [hlen]

/-- Witness for C3's divergence theorem at a concrete 1000-byte file. -/
theorem downloadFile_range_writes_to_eof_witness :
    DownloadFile [("f.bin", List.replicate 1000 7)] "f.bin" "bytes=100-199"
        false =
      .ok { status := some 206
            contentRange := some "bytes 100-199/1000"
            acceptRanges := some "bytes"
            contentLength := some "100"
            contentDisposition := none
            contentType := none
            body := (List.replicate 1000 7).drop 100 } ∧
    ((List.replicate 1000 7).drop 100).length = 900 :=
  downloadFile_range_writes_to_eof [("f.bin", List.replicate 1000 7)] "f.bin"
    (List.replicate 1000 7) rfl (by rw [List.length_replicate])

/-- On an all-digit input the decimal reader always succeeds. -/
theorem digitsToNat_of_digits (cs : List Char) (h : ∀ c ∈ cs, c.isDigit)
    (acc : Nat) : ∃ n, digitsToNat cs acc = some n := by
  induction cs generalizing acc with
  | nil => exact ⟨acc, rfl⟩
  | cons c rest ih =>
      have hc : c.isDigit := h c (List.mem_cons_self c rest)
      have hrest : ∀ c ∈ rest, c.isDigit := fun d hd => h d (List.mem_cons_of_mem c hd)
      simpa [digitsToNat, hc] using ih hrest (10 * acc + (c.toNat - 48))

/-- Claim C4 counterexample: the open-ended range header `bytes=100-` is
not served to end of file; `parseRangeHeader` rejects it outright. -/
theorem parseRangeHeader_open_end_cex :
    parseRangeHeader "bytes=100-" = Except.error "range end position required" := rfl

/-- Claim C4 (amended): for every download range header of the form
`bytes=<start>-` with the end position absent, `parseRangeHeader` returns
the error "range end position required" and `DownloadFile` rejects the
request with that error before writing anything, instead of serving
`[start, fileSize)`. -/
theorem parseRangeHeader_open_end_rejected (dests : FileMap)
    (filename s : String) (content : List Nat)
    (hne : s.data ≠ []) (hdig : ∀ c ∈ s.data, c.isDigit)
    (hlook : lookupKey filename dests = some content) :
    parseRangeHeader ("bytes=" ++ s ++ "-") =
      Except.error "range end position required" ∧
    DownloadFile dests filename ("bytes=" ++ s ++ "-") false =
      Except.error "range end position required" := by
  have hdata : ("bytes=" ++ s ++ "-").data = "bytes".data ++ '=' :: (s.data ++ ['-']) := by
    simp only [String.data_append]
    rfl
  have hnomem : ('=' : Char) ∉ s.data ++ ['-'] := by
    intro hm
    rcases List.mem_append.1 hm with h | h
    · exact absurd (hdig _ h) (by decide)
    · simp at h
  have hidx : (splitOnChar '=' ("bytes=" ++ s ++ "-").data)[1]? = some (s.data ++ ['-']) := by
    rw [hdata, splitOnChar_append_sep _ (by decide), splitOnChar_of_not_mem hnomem]
    rfl
  have hrp : splitOnChar '-' (s.data ++ ['-']) = [s.data, []] :=
    splitOnChar_dash_of_digits hdig
  obtain ⟨n, hn⟩ := digitsToNat_of_digits s.data hdig 0
  have hpi : parseInt (String.mk s.data) = some (n : Int) :=
    parseInt_of_digits hne hdig hn
  have hmain : parseRangeHeader ("bytes=" ++ s ++ "-") =
      Except.error "range end position required" := by
    unfold parseRangeHeader
    simp only [hidx, hrp, List.headD, hpi]
    rfl
  have hne2 : ¬("bytes=" ++ s ++ "-" = "") := by
    intro h
    have := congrArg String.data h
    rw [hdata] at this
    simp at this
  refine ⟨hmain, ?_⟩
  simp only [DownloadFile, hlook, ne_eq, hne2, not_false_iff, if_true, hmain]

/-- Witness for C4's amended theorem at the header `bytes=100-` against a
three-byte file. -/
theorem parseRangeHeader_open_end_rejected_witness :
    parseRangeHeader ("bytes=" ++ "100" ++ "-") =
      Except.error "range end position required" ∧
    DownloadFile [("f.bin", [1, 2, 3])] "f.bin" ("bytes=" ++ "100" ++ "-") false =
      Except.error "range end position required" :=
  parseRangeHeader_open_end_rejected [("f.bin", [1, 2, 3])] "f.bin" "100"
    [1, 2, 3] (by decide) (by decide) rfl

/-- Claim C8: chunked download with `chunkIndex = 2`, `chunkSize = 1024`
against a 2500-byte file serves exactly bytes `[2048, 2500)` — 452 bytes —
with `Content-Length: 452` and the window end clamped to `fileSize - 1`;
and in general, whenever `chunkIndex*chunkSize + chunkSize - 1 ≥ fileSize`,
the served window's end is `fileSize - 1`. -/
theorem downloadFileChunk_clamps (dests : FileMap) (filename : String)
    (content : List Nat)
    (hlook : lookupKey filename dests = some content)
    (hlen : content.length = 2500) :
    (DownloadFileChunk dests filename 2 1024 false =
      Except.ok { status := some 206
                  contentRange := some "bytes 2048-2499/2500"
                  acceptRanges := some "bytes"
                  contentLength := some "452"
                  contentDisposition := none
                  contentType := none
                  body := content.drop 2048 } ∧
     (content.drop 2048).length = 452) ∧
    ∀ chunkIndex chunkSize fileSize : Int,
      chunkIndex * chunkSize + chunkSize - 1 ≥ fileSize →
      (chunkWindow chunkIndex chunkSize fileSize).2 = fileSize - 1 := by
  refine ⟨⟨?_, ?_⟩, ?_⟩
  · simp only [DownloadFileChunk, hlook, hlen, copyWithCancel, chunkWindow]
    rfl
  · simp [hlen]
  · intro chunkIndex chunkSize fileSize h
    simp only [chunkWindow]
    exact if_pos h

/-- Witness for C8 at a concrete 2500-byte file. -/
theorem downloadFileChunk_clamps_witness :
    DownloadFileChunk [("g.bin", List.replicate 2500 9)] "g.bin" 2 1024 false =
      Except.ok { status := some 206
                  contentRange := some "bytes 2048-2499/2500"
                  acceptRanges := some "bytes"
                  contentLength := some "452"
                  contentDisposition := none
                  contentType := none
                  body := (List.replicate 2500 9).drop 2048 } ∧
    (chunkWindow 2 1024 2500).2 = 2499 := by
  have h := downloadFileChunk_clamps [("g.bin", List.replicate 2500 9)] "g.bin"
    (List.replicate 2500 9) rfl (by rw [List.length_replicate])
  exact ⟨h.1.1, h.2 2 1024 2500 (by decide)⟩

/-! ## Chunked upload and merge: `SaveFileChunk`, `mergeFileChunks` -/

/-- `FileChunkInfo` from the source, field for field. -/
structure FileChunkInfo where
  FileName : String
  TotalSize : Int
  ChunkIndex : Int
  ChunkSize : Int
  TotalChunk : Int
  MD5 : String
deriving DecidableEq, Repr

/-- Staging chunk files `<root>/chunks/<fileName>/<fileName>_<index>`,
keyed by (owning file name, chunk index).  The source locates the index-`i`
chunk inside one staging directory with `filepath.Glob("*_<i>")`; every
file in that directory is named `<fileName>_<j>`, and `_<i>` is a suffix of
`<fileName>_<j>` exactly when `i = j` (a digit run cannot absorb the `_`
separator), so the glob is index addressing and the staging area is
modelled as a map from (file name, index). -/
abbrev ChunkMap := List ((String × Int) × List Nat)

/-- The mutable state the chunk-upload path touches: final files, staging
chunk files, and (for the frame claim) the MD5 cache, which
`SaveFileChunk` never references. -/
structure StorageState where
  dests : FileMap
  chunks : ChunkMap
  cache : MD5CacheMap
deriving DecidableEq, Repr

/-- `os.RemoveAll(chunkDir)`: drops every staging file of one owning file. -/
def removeChunkDir (fileName : String) (chunks : ChunkMap) : ChunkMap :=
  chunks.filter (fun kv => decide (kv.1.1 ≠ fileName))

/-- Reading the staging file for index `i` of one owning file. -/
def chunkFileLookup (chunks : ChunkMap) (fileName : String) (i : Nat) :
    Option (List Nat) :=
  lookupKey (fileName, (i : Int)) chunks

/-- The merge loop of `mergeFileChunks` over indices `0..n-1` in ascending
order: returns the bytes appended to the (freshly truncated) destination
and the first missing index, if any — the loop stops there. -/
def mergeLoop (look : Nat → Option (List Nat)) : Nat → List Nat × Option Nat
  | 0 => ([], none)
  | n + 1 =>
      match mergeLoop look n with
      | (acc, none) =>
          match look n with
          | some c => (acc ++ c, none)
          | none => (acc, some n)
      | r => r

/-- `mergeFileChunks(chunkDir, targetFile, totalChunk)` as a function of
the staging state.  `os.Create` truncates the target; the loop `for i := 0;
i < totalChunk; i++` runs `totalChunk.toNat` times.  The source deletes the
staging directory after a successful loop, an effect `SaveFileChunk`
applies to the state below. -/
def mergeFileChunks (chunks : ChunkMap) (fileName : String) (totalChunk : Int) :
    List Nat × Option Nat :=
  mergeLoop (chunkFileLookup chunks fileName) totalChunk.toNat

/-- `calculateFileMD5(filePath)`: opens the file and hashes its content
with the ambient hash function. -/
def calculateFileMD5 (md5fn : List Nat → String) (dests : FileMap)
    (path : String) : Except String String :=
  match lookupKey path dests with
  | none => .error "file not found"
  | some content => .ok (md5fn content)

/-- `SaveFileChunk(storagePath, chunkInfo, file)`: persists the arriving
chunk at `(FileName, ChunkIndex)`; when the declared last chunk arrives
(`ChunkIndex == TotalChunk-1`) it merges chunks `0..TotalChunk-1` into the
destination, deletes the staging directory on merge success, computes the
destination's MD5 and compares it with the declared one, deleting the
destination on mismatch.  A merge abort leaves the partially written
destination and the staging directory in place. -/
def SaveFileChunk (md5fn : List Nat → String) (st : StorageState)
    (info : FileChunkInfo) (content : List Nat) :
    StorageState × Except String Unit :=
  let st1 : StorageState :=
    { st with chunks := setKey (info.FileName, info.ChunkIndex) content st.chunks }
  if info.ChunkIndex = info.TotalChunk - 1 then
    let m := mergeFileChunks st1.chunks info.FileName info.TotalChunk
    match m.2 with
    | some i =>
        ({ st1 with dests := setKey info.FileName m.1 st1.dests },
         .error ("chunk not found: chunk " ++ toString i))
    | none =>
        let st2 : StorageState :=
          { st1 with dests := setKey info.FileName m.1 st1.dests,
                     chunks := removeChunkDir info.FileName st1.chunks }
        match calculateFileMD5 md5fn st2.dests info.FileName with
        | .error e => (st2, .error e)
        | .ok md5sum =>
            if md5sum ≠ info.MD5 then
              ({ st2 with dests := removeKey info.FileName st2.dests },
               .error ("file integrity check failed: expected " ++ info.MD5
                 ++ ", got " ++ md5sum))
            else (st2, .ok ())
  else (st1, .ok ())

/-- Concatenation of the staged chunks `0..n-1` (present ones), the
reference value for the merge loop's destination writes. -/
def concatChunks (look : Nat → Option (List Nat)) : Nat → List Nat
  | 0 => []
  | n + 1 => concatChunks look n ++ ((look (n : Nat)).getD [])

/-- When every index below `n` is present the merge loop concatenates them
all and reports no missing index. -/
theorem mergeLoop_complete (look : Nat → Option (List Nat)) (n : Nat)
    (h : ∀ j < n, look j ≠ none) :
    mergeLoop look n = (concatChunks look n, none) := by
  induction n with
  | zero => rfl
  | succ n ih =>
      have hn : ∀ j < n, look j ≠ none := fun j hj => h j (Nat.lt_succ_of_lt hj)
      rw [mergeLoop, ih hn]
      cases hl : look n with
      | none => exact absurd hl (h n (Nat.lt_succ_self n))
      | some c => simp [concatChunks, hl]

/-- When `i` is the least missing index and the loop runs past it, it
aborts at `i` with chunks `0..i-1` already appended. -/
theorem mergeLoop_missing (look : Nat → Option (List Nat)) (i n : Nat)
    (hi : look i = none) (hj : ∀ j < i, look j ≠ none) (hlt : i < n) :
    mergeLoop look n = (concatChunks look i, some i) := by
  induction n with
  | zero => exact absurd hlt (Nat.not_lt_zero i)
  | succ n ih =>
      rcases Nat.lt_succ_iff_lt_or_eq.1 hlt with h | h
      · rw [mergeLoop, ih h]
      · subst h
        rw [mergeLoop, mergeLoop_complete look i hj, hi]

/-- Claim C1: when `SaveFileChunk` receives the declared last chunk and the
merge succeeds with destination bytes `merged`, the destination's MD5 is
computed and compared with the declared one: on mismatch the destination is
deleted (its lookup is `none` afterward) and the distinct integrity error
is returned; on match it returns success with the destination holding
exactly `merged`, whose checksum equals the declared one. -/
theorem saveFileChunk_verifies_integrity (md5fn : List Nat → String)
    (st : StorageState) (info : FileChunkInfo) (content merged : List Nat)
    (hlast : info.ChunkIndex = info.TotalChunk - 1)
    (hmerge : mergeFileChunks
        (setKey (info.FileName, info.ChunkIndex) content st.chunks)
        info.FileName info.TotalChunk = (merged, none)) :
    (md5fn merged ≠ info.MD5 →
      (SaveFileChunk md5fn st info content).2 =
        .error ("file integrity check failed: expected " ++ info.MD5
          ++ ", got " ++ md5fn merged) ∧
      lookupKey info.FileName (SaveFileChunk md5fn st info content).1.dests = none) ∧
    (md5fn merged = info.MD5 →
      (SaveFileChunk md5fn st info content).2 = .ok () ∧
      lookupKey info.FileName (SaveFileChunk md5fn st info content).1.dests =
        some merged ∧
      md5fn merged = info.MD5) := by
  have hres : SaveFileChunk md5fn st info content =
      (let st2 : StorageState :=
        { dests := setKey info.FileName merged st.dests,
          chunks := removeChunkDir info.FileName
            (setKey (info.FileName, info.ChunkIndex) content st.chunks),
          cache := st.cache }
       if md5fn merged ≠ info.MD5 then
        ({ st2 with dests := removeKey info.FileName st2.dests },
         .error ("file integrity check failed: expected " ++ info.MD5
           ++ ", got " ++ md5fn merged))
       else (st2, .ok ())) := by
    simp only [SaveFileChunk, if_pos hlast, hmerge, calculateFileMD5,
      lookupKey_setKey_self]
  constructor
  · intro hmd
    rw [hres]
    simp [if_pos hmd, lookupKey_removeKey_self]
  · intro hmd
    rw [hres]
    simp [hmd, lookupKey_setKey_self]

/-- Witness for C1: last chunk (index 1 of 2) arrives with chunk 0 staged;
the merge yields `[5, 6]`, the hash matches the declared value, and the
destination holds the merged bytes. -/
theorem saveFileChunk_verifies_integrity_witness :
    (SaveFileChunk (fun _ => "x")
        { dests := [], chunks := [(("a", 0), [5])], cache := [] }
        { FileName := "a", TotalSize := 2, ChunkIndex := 1, ChunkSize := 1,
          TotalChunk := 2, MD5 := "x" } [6]).2 = .ok () ∧
    lookupKey "a" (SaveFileChunk (fun _ => "x")
        { dests := [], chunks := [(("a", 0), [5])], cache := [] }
        { FileName := "a", TotalSize := 2, ChunkIndex := 1, ChunkSize := 1,
          TotalChunk := 2, MD5 := "x" } [6]).1.dests = some [5, 6] := by
  have h := (saveFileChunk_verifies_integrity (fun _ => "x")
    { dests := [], chunks := [(("a", 0), [5])], cache := [] }
    { FileName := "a", TotalSize := 2, ChunkIndex := 1, ChunkSize := 1,
      TotalChunk := 2, MD5 := "x" } [6] [5, 6] rfl rfl).2 rfl
  exact ⟨h.1, h.2.1⟩

/-- Claim C7: during a merge triggered by the declared last chunk, a least
missing index `i` below `TotalChunk` aborts the merge with the distinct
error naming `i`; the destination is left partially written, holding
exactly the concatenation of chunks `0..i-1`, and the staging directory is
not deleted (it still holds exactly the post-write staging files). -/
theorem saveFileChunk_missing_chunk (md5fn : List Nat → String)
    (st : StorageState) (info : FileChunkInfo) (content : List Nat) (i : Nat)
    (hlast : info.ChunkIndex = info.TotalChunk - 1)
    (hi : chunkFileLookup
        (setKey (info.FileName, info.ChunkIndex) content st.chunks)
        info.FileName i = none)
    (hj : ∀ j < i, chunkFileLookup
        (setKey (info.FileName, info.ChunkIndex) content st.chunks)
        info.FileName j ≠ none)
    (hlt : i < info.TotalChunk.toNat) :
    (SaveFileChunk md5fn st info content).2 =
      .error ("chunk not found: chunk " ++ toString i) ∧
    lookupKey info.FileName (SaveFileChunk md5fn st info content).1.dests =
      some (concatChunks
        (chunkFileLookup
          (setKey (info.FileName, info.ChunkIndex) content st.chunks)
          info.FileName) i) ∧
    (SaveFileChunk md5fn st info content).1.chunks =
      setKey (info.FileName, info.ChunkIndex) content st.chunks ∧
    (SaveFileChunk md5fn st info content).1.cache = st.cache := by
  have hmerge : mergeFileChunks
      (setKey (info.FileName, info.ChunkIndex) content st.chunks)
      info.FileName info.TotalChunk =
      (concatChunks
        (chunkFileLookup
          (setKey (info.FileName, info.ChunkIndex) content st.chunks)
          info.FileName) i, some i) :=
    mergeLoop_missing _ i _ hi hj hlt
  simp only [SaveFileChunk, if_pos hlast, hmerge]
  simp [lookupKey_setKey_self]

/-- Witness for C7: the last chunk (index 1 of 2) arrives with no chunk 0
staged; the merge aborts naming chunk 0, the destination is created empty,
and the staging file for index 1 survives. -/
theorem saveFileChunk_missing_chunk_witness :
    (SaveFileChunk (fun _ => "x")
        { dests := [], chunks := [], cache := [] }
        { FileName := "a", TotalSize := 2, ChunkIndex := 1, ChunkSize := 1,
          TotalChunk := 2, MD5 := "x" } [6]).2 =
      .error "chunk not found: chunk 0" ∧
    (SaveFileChunk (fun _ => "x")
        { dests := [], chunks := [], cache := [] }
        { FileName := "a", TotalSize := 2, ChunkIndex := 1, ChunkSize := 1,
          TotalChunk := 2, MD5 := "x" } [6]).1.chunks =
      setKey (("a" : String), (1 : Int)) [6] [] := by
  have h := saveFileChunk_missing_chunk (fun _ => "x")
    { dests := [], chunks := [], cache := [] }
    { FileName := "a", TotalSize := 2, ChunkIndex := 1, ChunkSize := 1,
      TotalChunk := 2, MD5 := "x" } [6] 0 rfl rfl
    (fun j hj => absurd hj (Nat.not_lt_zero j)) (by decide)
  exact ⟨h.1, h.2.2.1⟩

/-- Claim C10: a chunk whose index is not the declared last one is saved
successfully; only the staging file at `(FileName, ChunkIndex)` changes,
while the destination files, every other staging file, and the MD5 cache
are untouched — no merge and no checksum verification occur. -/
theorem saveFileChunk_non_last_frame (md5fn : List Nat → String)
    (st : StorageState) (info : FileChunkInfo) (content : List Nat)
    (h : info.ChunkIndex ≠ info.TotalChunk - 1) :
    (SaveFileChunk md5fn st info content).2 = .ok () ∧
    (SaveFileChunk md5fn st info content).1.dests = st.dests ∧
    (SaveFileChunk md5fn st info content).1.cache = st.cache ∧
    lookupKey (info.FileName, info.ChunkIndex)
      (SaveFileChunk md5fn st info content).1.chunks = some content ∧
    ∀ key : String × Int, key ≠ (info.FileName, info.ChunkIndex) →
      lookupKey key (SaveFileChunk md5fn st info content).1.chunks =
        lookupKey key st.chunks := by
  have hstep : SaveFileChunk md5fn st info content =
      ({ st with chunks := setKey (info.FileName, info.ChunkIndex) content st.chunks },
       .ok ()) := by
    simp only [SaveFileChunk, if_neg h]
  rw [hstep]
  exact ⟨rfl, rfl, rfl, lookupKey_setKey_self _ _ _,
    fun key hk => lookupKey_setKey_ne _ _ (Ne.symm hk)⟩

/-- Witness for C10: chunk 0 of 3 arrives; the call succeeds, the staging
file appears, and an unrelated staged chunk is untouched. -/
theorem saveFileChunk_non_last_frame_witness :
    (SaveFileChunk (fun _ => "x")
        { dests := [("d", [1])], chunks := [(("b", 5), [9])], cache := [] }
        { FileName := "a", TotalSize := 3, ChunkIndex := 0, ChunkSize := 1,
          TotalChunk := 3, MD5 := "m" } [7]).2 = .ok () ∧
    lookupKey (("a" : String), (0 : Int)) (SaveFileChunk (fun _ => "x")
        { dests := [("d", [1])], chunks := [(("b", 5), [9])], cache := [] }
        { FileName := "a", TotalSize := 3, ChunkIndex := 0, ChunkSize := 1,
          TotalChunk := 3, MD5 := "m" } [7]).1.chunks = some [7] ∧
    lookupKey (("b" : String), (5 : Int)) (SaveFileChunk (fun _ => "x")
        { dests := [("d", [1])], chunks := [(("b", 5), [9])], cache := [] }
        { FileName := "a", TotalSize := 3, ChunkIndex := 0, ChunkSize := 1,
          TotalChunk := 3, MD5 := "m" } [7]).1.chunks = some [9] := by
  have h := saveFileChunk_non_last_frame (fun _ => "x")
    { dests := [("d", [1])], chunks := [(("b", 5), [9])], cache := [] }
    { FileName := "a", TotalSize := 3, ChunkIndex := 0, ChunkSize := 1,
      TotalChunk := 3, MD5 := "m" } [7] (by decide)
  refine ⟨h.1, h.2.2.2.1, ?_⟩
  rw [h.2.2.2.2 ("b", 5) (by decide)]
  rfl

/-! ## `ListFiles`: directory listing with asynchronous MD5 computation -/

/-- One `os.ReadDir` entry: name, size, modification time, directory flag. -/
structure DirEntry where
  name : String
  size : Int
  modTime : Nat
  isDir : Bool
deriving DecidableEq, Repr

/-- `FileMetadata` from the source, field for field. -/
structure FileMetadata where
  Name : String
  Size : Int
  ModTime : Nat
  MD5 : String
deriving DecidableEq, Repr

/-- `filepath.Join(storagePath, name)` on the already-clean paths the
listing produces. -/
def joinPath (a b : String) : String := a ++ "/" ++ b

/-- The state the listing loop threads: the shared MD5 cache and the paths
handed to background MD5 goroutines (`go func(...)`), oldest first. -/
structure ListState where
  cache : MD5CacheMap
  scheduled : List String
deriving DecidableEq, Repr

/-- One iteration of the `ListFiles` loop: skip directories; try the cache;
on a miss, return an empty MD5 and — unless a computation is already in
flight for the path — mark it Calculating and schedule a background job. -/
def listFilesStep (storagePath : String) (s : ListState) (entry : DirEntry) :
    ListState × Option FileMetadata :=
  if entry.isDir then (s, none)
  else
    let filePath := joinPath storagePath entry.name
    let r := GetMD5FromCache s.cache filePath entry.modTime entry.size
    if r.2 then
      (s, some { Name := entry.name, Size := entry.size,
                 ModTime := entry.modTime, MD5 := r.1 })
    else
      let calculating := (GetProgress s.cache filePath).2.1
      let s' := if calculating then s
        else { cache := SetCalculating s.cache filePath entry.modTime entry.size,
               scheduled := s.scheduled ++ [filePath] }
      (s', some { Name := entry.name, Size := entry.size,
                  ModTime := entry.modTime, MD5 := "" })

/-- The `ListFiles` loop over the directory entries. -/
def listFilesAux (storagePath : String) :
    ListState → List DirEntry → ListState × List FileMetadata
  | s, [] => (s, [])
  | s, e :: rest =>
      let p := listFilesStep storagePath s e
      let q := listFilesAux storagePath p.1 rest
      (q.1, match p.2 with
            | none => q.2
            | some meta => meta :: q.2)

/-- `ListFiles(storagePath)`: runs the loop against the current cache with
no jobs scheduled yet, returning the final state and the metadata list. -/
def ListFiles (storagePath : String) (cache : MD5CacheMap)
    (entries : List DirEntry) : ListState × List FileMetadata :=
  listFilesAux storagePath { cache := cache, scheduled := [] } entries

/-- `SetCalculating` turns the Calculating flag on for its path and leaves
every other path's flag unchanged. -/
theorem getProgress_setCalculating (cache : MD5CacheMap) (p fp : String)
    (mt : Nat) (sz : Int) :
    (GetProgress (SetCalculating cache fp mt sz) p).2.1 =
      if fp = p then true else (GetProgress cache p).2.1 := by
  unfold GetProgress SetCalculating
  by_cases h : fp = p
  · subst h; rw [lookupKey_setKey_self]; simp
  · rw [lookupKey_setKey_ne _ _ h, if_neg h]

/-- `SetCalculating` never creates a Calculated hit: the written entry has
`Calculated = false`, other paths are unchanged. -/
theorem getMD5FromCache_setCalculating_snd (cache : MD5CacheMap)
    (fp p : String) (mt0 : Nat) (sz0 : Int) (mt : Nat) (sz : Int) :
    (GetMD5FromCache (SetCalculating cache fp mt0 sz0) p mt sz).2 =
      if fp = p then false else (GetMD5FromCache cache p mt sz).2 := by
  unfold GetMD5FromCache SetCalculating
  by_cases h : fp = p
  · subst h
    rw [lookupKey_setKey_self, if_pos rfl]
    show (if mt0 ≠ mt ∨ sz0 ≠ sz then (("" : String), false) else ("", false)).2
      = false
    rw [ite_self]
  · rw [lookupKey_setKey_ne _ _ h, if_neg h]

/-- The step either leaves the state unchanged, or — on a cache miss with
no in-flight computation — marks the entry's path Calculating and appends
it to the scheduled jobs. -/
theorem listFilesStep_cases (sp : String) (s : ListState) (e : DirEntry) :
    (listFilesStep sp s e).1 = s ∨
    ((GetProgress s.cache (joinPath sp e.name)).2.1 = false ∧
     (GetMD5FromCache s.cache (joinPath sp e.name) e.modTime e.size).2 = false ∧
     (listFilesStep sp s e).1 =
       { cache := SetCalculating s.cache (joinPath sp e.name) e.modTime e.size,
         scheduled := s.scheduled ++ [joinPath sp e.name] }) := by
  unfold listFilesStep
  by_cases hd : e.isDir
  · left; simp [hd]
  · by_cases hr : (GetMD5FromCache s.cache (joinPath sp e.name) e.modTime e.size).2 = true
    · left; simp [hd, hr]
    · by_cases hc : (GetProgress s.cache (joinPath sp e.name)).2.1 = true
      · left; simp [hd, hr, hc]
      · right
        refine ⟨by simpa using hc, by simpa using hr, ?_⟩
        simp [hd, hr, hc]

/-- A cache miss survives a listing step for every fingerprint. -/
theorem listFilesStep_miss_mono (sp : String) (s : ListState) (e : DirEntry)
    (p : String) (mt : Nat) (sz : Int)
    (h : (GetMD5FromCache s.cache p mt sz).2 = false) :
    (GetMD5FromCache (listFilesStep sp s e).1.cache p mt sz).2 = false := by
  rcases listFilesStep_cases sp s e with hc | ⟨_, _, hc⟩
  · rw [hc]; exact h
  · rw [hc]
    show (GetMD5FromCache (SetCalculating s.cache (joinPath sp e.name)
        e.modTime e.size) p mt sz).2 = false
    rw [getMD5FromCache_setCalculating_snd]
    split
    · rfl
    · exact h

/-- The set of Calculating paths only grows during a listing step. -/
theorem listFilesStep_calc_mono (sp : String) (s : ListState) (e : DirEntry)
    (p : String) (h : (GetProgress s.cache p).2.1 = true) :
    (GetProgress (listFilesStep sp s e).1.cache p).2.1 = true := by
  rcases listFilesStep_cases sp s e with hc | ⟨_, _, hc⟩
  · rw [hc]; exact h
  · rw [hc]
    show (GetProgress (SetCalculating s.cache (joinPath sp e.name)
        e.modTime e.size) p).2.1 = true
    rw [getProgress_setCalculating]
    split
    · rfl
    · exact h

/-- The scheduling invariants of the listing loop, by induction over the
remaining entries: (1) the scheduled list stays duplicate-free, (2) already
scheduled jobs survive, (3) a path already Calculating stays Calculating
and is never scheduled by the remaining iterations, and (4) a non-directory
entry whose fingerprint misses the cache ends up either already in flight
at its processing point or scheduled. -/
theorem listFilesAux_invariants (sp : String) (entries : List DirEntry) :
    ∀ s : ListState, s.scheduled.Nodup →
      (∀ q ∈ s.scheduled, (GetProgress s.cache q).2.1 = true) →
      ((listFilesAux sp s entries).1.scheduled.Nodup ∧
       (∀ q ∈ s.scheduled, q ∈ (listFilesAux sp s entries).1.scheduled) ∧
       (∀ p, (GetProgress s.cache p).2.1 = true →
          (GetProgress (listFilesAux sp s entries).1.cache p).2.1 = true ∧
          (p ∈ (listFilesAux sp s entries).1.scheduled → p ∈ s.scheduled)) ∧
       (∀ e ∈ entries, e.isDir = false →
          (GetMD5FromCache s.cache (joinPath sp e.name) e.modTime e.size).2 = false →
          ((GetProgress s.cache (joinPath sp e.name)).2.1 = true ∨
            joinPath sp e.name ∈ (listFilesAux sp s entries).1.scheduled))) := by
  induction entries with
  | nil =>
      intro s hnd hq
      exact ⟨hnd, fun q hqs => hqs, fun p hp => ⟨hp, fun h => h⟩,
        fun e he => absurd he (List.not_mem_nil e)⟩
  | cons e0 rest ih =>
      intro s hnd hq
      have h1eq : (listFilesAux sp s (e0 :: rest)).1 =
          (listFilesAux sp (listFilesStep sp s e0).1 rest).1 := rfl
      have h2eq : ∀ x, x ∈ (listFilesAux sp s (e0 :: rest)).1.scheduled ↔
          x ∈ (listFilesAux sp (listFilesStep sp s e0).1 rest).1.scheduled := by
        intro x; rw [h1eq]
      -- step-level facts
      have hF2 : ∀ q ∈ s.scheduled, q ∈ (listFilesStep sp s e0).1.scheduled := by
        intro q hqs
        rcases listFilesStep_cases sp s e0 with hc | ⟨_, _, hc⟩
        · rw [hc]; exact hqs
        · rw [hc]; exact List.mem_append_left _ hqs
      have hF3 : ∀ p, (GetProgress s.cache p).2.1 = true →
          (GetProgress (listFilesStep sp s e0).1.cache p).2.1 = true ∧
          (p ∈ (listFilesStep sp s e0).1.scheduled → p ∈ s.scheduled) := by
        intro p hp
        refine ⟨listFilesStep_calc_mono sp s e0 p hp, ?_⟩
        rcases listFilesStep_cases sp s e0 with hc | ⟨hcalc, _, hc⟩
        · rw [hc]; exact fun h => h
        · rw [hc]
          intro hmem
          rcases List.mem_append.1 hmem with h | h
          · exact h
          · exfalso
            have : p = joinPath sp e0.name := by simpa using h
            rw [this] at hp
            rw [hp] at hcalc
            cases hcalc
      have hF1nodup : (listFilesStep sp s e0).1.scheduled.Nodup := by
        rcases listFilesStep_cases sp s e0 with hc | ⟨hcalc, _, hc⟩
        · rw [hc]; exact hnd
        · rw [hc]
          refine List.Nodup.append hnd (List.nodup_singleton _) ?_
          intro x hx hx'
          have hxj : x = joinPath sp e0.name := by simpa using hx'
          have := hq x hx
          rw [hxj] at this
          rw [this] at hcalc
          cases hcalc
      have hF1q : ∀ q ∈ (listFilesStep sp s e0).1.scheduled,
          (GetProgress (listFilesStep sp s e0).1.cache q).2.1 = true := by
        rcases listFilesStep_cases sp s e0 with hc | ⟨hcalc, _, hc⟩
        · rw [hc]; exact hq
        · rw [hc]
          intro q hmem
          show (GetProgress (SetCalculating s.cache (joinPath sp e0.name)
              e0.modTime e0.size) q).2.1 = true
          rw [getProgress_setCalculating]
          rcases List.mem_append.1 hmem with h | h
          · split
            · rfl
            · exact hq q h
          · have : q = joinPath sp e0.name := by simpa using h
            rw [if_pos this.symm]
      obtain ⟨i1, i2, i3, i4⟩ := ih (listFilesStep sp s e0).1 hF1nodup hF1q
      refine ⟨h1eq ▸ i1, ?_, ?_, ?_⟩
      · intro q hqs
        exact (h2eq q).2 (i2 q (hF2 q hqs))
      · intro p hp
        obtain ⟨hth, hback⟩ := hF3 p hp
        obtain ⟨jth, jback⟩ := i3 p hth
        exact ⟨h1eq ▸ jth, fun hmem => hback (jback ((h2eq p).1 hmem))⟩
      · intro e he hdir hmiss
        rcases List.mem_cons.1 he with rfl | he'
        · by_cases hc : (GetProgress s.cache (joinPath sp e.name)).2.1 = true
          · exact Or.inl hc
          · right
            have hc' : (GetProgress s.cache (joinPath sp e.name)).2.1 = false := by
              simpa using hc
            have hstep : (listFilesStep sp s e).1 =
                { cache := SetCalculating s.cache (joinPath sp e.name)
                    e.modTime e.size,
                  scheduled := s.scheduled ++ [joinPath sp e.name] } := by
              simp [listFilesStep, hdir, hmiss, hc']
            have hmem : joinPath sp e.name ∈ (listFilesStep sp s e).1.scheduled := by
              rw [hstep]
              exact List.mem_append_right _ (List.mem_singleton.2 rfl)
            exact (h2eq _).2 (i2 _ hmem)
        · have hmiss1 : (GetMD5FromCache (listFilesStep sp s e0).1.cache
              (joinPath sp e.name) e.modTime e.size).2 = false :=
            listFilesStep_miss_mono sp s e0 _ _ _ hmiss
          rcases i4 e he' hdir hmiss1 with h | h
          · -- already in flight after the head step: either it was in flight
            -- before, or the head step scheduled exactly this path
            rcases listFilesStep_cases sp s e0 with hc | ⟨hcalc, _, hc⟩
            · rw [hc] at h; exact Or.inl h
            · rw [hc] at h
              revert h
              show (GetProgress (SetCalculating s.cache (joinPath sp e0.name)
                  e0.modTime e0.size) (joinPath sp e.name)).2.1 = true → _
              rw [getProgress_setCalculating]
              intro h
              by_cases hpe : joinPath sp e0.name = joinPath sp e.name
              · right
                have hmem : joinPath sp e.name ∈ (listFilesStep sp s e0).1.scheduled := by
                  rw [hc]
                  exact List.mem_append_right _ (List.mem_singleton.2 hpe.symm)
                exact (h2eq _).2 (i2 _ hmem)
              · rw [if_neg hpe] at h
                exact Or.inl h
          · exact Or.inr ((h2eq _).2 h)

/-- Every metadata record a step emits carries the entry's name, size and
modification time, and its MD5 is empty unless the cache had a
fingerprint-valid Calculated hit at that moment. -/
theorem listFilesStep_meta (sp : String) (s : ListState) (e : DirEntry) :
    (listFilesStep sp s e).2 = none ∨
    ∃ v, (listFilesStep sp s e).2 =
        some { Name := e.name, Size := e.size, ModTime := e.modTime, MD5 := v } ∧
      (v = "" ∨
        (GetMD5FromCache s.cache (joinPath sp e.name) e.modTime e.size).2 = true) := by
  unfold listFilesStep
  by_cases hd : e.isDir
  · left; simp [hd]
  · right
    by_cases hr : (GetMD5FromCache s.cache (joinPath sp e.name) e.modTime e.size).2 = true
    · refine ⟨(GetMD5FromCache s.cache (joinPath sp e.name) e.modTime e.size).1,
        ?_, Or.inr hr⟩
      simp [hd, hr]
    · refine ⟨"", ?_, Or.inl rfl⟩
      by_cases hc : (GetProgress s.cache (joinPath sp e.name)).2.1 = true <;>
        simp [hd, hr, hc]

/-- Files lacking a fingerprint-valid cached checksum are listed with an
empty MD5 field, whatever the loop state, provided the loop's cache never
reintroduces validity the initial cache lacked (which steps never do). -/
theorem listFilesAux_md5_empty (sp : String) (cache0 : MD5CacheMap)
    (entries : List DirEntry) :
    ∀ s : ListState,
      (∀ p mt sz, (GetMD5FromCache cache0 p mt sz).2 = false →
         (GetMD5FromCache s.cache p mt sz).2 = false) →
      ∀ m ∈ (listFilesAux sp s entries).2,
        (GetMD5FromCache cache0 (joinPath sp m.Name) m.ModTime m.Size).2 = false →
        m.MD5 = "" := by
  induction entries with
  | nil =>
      intro s hrel m hm
      simp [listFilesAux] at hm
  | cons e0 rest ih =>
      intro s hrel m hm hmiss
      have hrel1 : ∀ p mt sz, (GetMD5FromCache cache0 p mt sz).2 = false →
          (GetMD5FromCache (listFilesStep sp s e0).1.cache p mt sz).2 = false :=
        fun p mt sz h => listFilesStep_miss_mono sp s e0 p mt sz (hrel p mt sz h)
      have hm' : m ∈ (match (listFilesStep sp s e0).2 with
          | none => (listFilesAux sp (listFilesStep sp s e0).1 rest).2
          | some meta => meta :: (listFilesAux sp (listFilesStep sp s e0).1 rest).2) :=
        hm
      rcases listFilesStep_meta sp s e0 with hnone | ⟨v, hsome, hv⟩
      · rw [hnone] at hm'
        exact ih (listFilesStep sp s e0).1 hrel1 m hm' hmiss
      · rw [hsome] at hm'
        rcases List.mem_cons.1 hm' with rfl | hmem
        · rcases hv with hv | hv
          · exact hv
          · exfalso
            have := hrel _ _ _ hmiss
            rw [this] at hv
            cases hv
        · exact ih (listFilesStep sp s e0).1 hrel1 m hmem hmiss

/-- Claim C6: `ListFiles` lists every file lacking a fingerprint-valid
cached checksum with an empty MD5 field; such a file's path is handed to a
background MD5 job when no computation is in flight for it, and never when
one already is; and the call schedules no duplicate job for any path. -/
theorem listFiles_nonblocking (sp : String) (cache : MD5CacheMap)
    (entries : List DirEntry) :
    (∀ m ∈ (ListFiles sp cache entries).2,
        (GetMD5FromCache cache (joinPath sp m.Name) m.ModTime m.Size).2 = false →
        m.MD5 = "") ∧
    (∀ e ∈ entries, e.isDir = false →
        (GetMD5FromCache cache (joinPath sp e.name) e.modTime e.size).2 = false →
        (GetProgress cache (joinPath sp e.name)).2.1 = false →
        joinPath sp e.name ∈ (ListFiles sp cache entries).1.scheduled) ∧
    (∀ p, (GetProgress cache p).2.1 = true →
        p ∉ (ListFiles sp cache entries).1.scheduled) ∧
    (ListFiles sp cache entries).1.scheduled.Nodup := by
  obtain ⟨i1, i2, i3, i4⟩ := listFilesAux_invariants sp entries
    { cache := cache, scheduled := [] } (List.nodup_nil)
    (fun q hq => absurd hq (List.not_mem_nil q))
  refine ⟨?_, ?_, ?_, i1⟩
  · exact listFilesAux_md5_empty sp cache entries
      { cache := cache, scheduled := [] } (fun p mt sz h => h)
  · intro e he hdir hmiss hnc
    rcases i4 e he hdir hmiss with h | h
    · rw [hnc] at h; cases h
    · exact h
  · intro p hp hmem
    exact absurd ((i3 p hp).2 hmem) (List.not_mem_nil p)

/-- Witness for C6: one uncached file in an empty cache gets an empty MD5
in the listing, is scheduled exactly once, and the resulting schedule is
duplicate-free. -/
theorem listFiles_nonblocking_witness :
    joinPath "root" "big.bin" ∈
      (ListFiles "root" []
        [{ name := "big.bin", size := 10, modTime := 1, isDir := false }]).1.scheduled ∧
    (ListFiles "root" []
        [{ name := "big.bin", size := 10, modTime := 1, isDir := false }]).1.scheduled.Nodup := by
  have h := listFiles_nonblocking "root" []
    [{ name := "big.bin", size := 10, modTime := 1, isDir := false }]
  exact ⟨h.2.1 _ (List.mem_singleton.2 rfl) rfl rfl rfl, h.2.2.2⟩

end LFS
